import Mathlib

/-!
Shallow embedding of the TaskFlow Task Orchestration Engine:
the task data model (`src/types.ts`), the agent-command interpreter
`processAgentCommand` and the step generator `generateStepsForTask`
(`src/unnamed/part_000`), and the focus-session state machine
(`src/components/FocusMode.tsx`).
-/

namespace TaskFlow

/-- Step entity from `types.ts` (`TaskStep`). -/
structure TaskStep where
  id : String
  text : String
  isCompleted : Bool
  deriving DecidableEq

/-- Task status union from `types.ts`. -/
inductive TaskStatus where
  | pending
  | active
  | completed
  deriving DecidableEq

/-- Task entity from `types.ts`. The `subject` field is the backing string of the
`SubjectType` enum (it is what the interpreter lowercases and searches). Times are
integers per the tool schemas (`Type.INTEGER`). -/
structure Task where
  id : String
  title : String
  subject : String
  estimatedMinutes : Int
  steps : List TaskStep
  status : TaskStatus
  createdAt : Int
  deriving DecidableEq

/-- JavaScript `String.prototype.includes` on char lists: `sub` occurs contiguously
in the second argument; the empty string occurs in every string. -/
def containsChars (sub : List Char) : List Char → Bool
  | [] => sub.isEmpty
  | c :: rest => sub.isPrefixOf (c :: rest) || containsChars sub rest

/-- JavaScript `s.includes(sub)`. -/
def jsIncludes (s sub : String) : Bool := containsChars sub.data s.data

/-- JavaScript `toLowerCase` as used by the interpreter (character-wise lowering). -/
def lowerStr (s : String) : String := ⟨s.data.map Char.toLower⟩

/-- Structured tool calls the command agent may emit
(`updateTaskTimeTool`, `reorderTaskTool`, `deleteTaskTool` in `src/unnamed/part_000`). -/
inductive AgentCall where
  | updateTaskTime (taskKeyword : String) (newMinutes : Int)
  | reorderTask (taskKeyword : String) (newPosition : Int)
  | deleteTask (taskKeyword : String)
  deriving DecidableEq

/-- Keyword argument of a tool call. -/
def AgentCall.taskKeyword : AgentCall → String
  | .updateTaskTime kw _ => kw
  | .reorderTask kw _ => kw
  | .deleteTask kw => kw

/-- Failure text `I could not find a task matching "<kw>".` produced by the
interpreter when a keyword resolves to no task (with the original apostrophe
and quotes written as escapes). -/
def failMsg (taskKeyword : String) : String :=
  "I couldn\x27t find a task matching \x22" ++ taskKeyword ++ "\x22."

/-- Match predicate of the `findIndex` helper (`src/unnamed/part_000` lines 199-202):
the lowered title or lowered subject contains the lowered keyword. -/
def taskMatches (lowerKeyword : String) (t : Task) : Bool :=
  jsIncludes (lowerStr t.title) lowerKeyword || jsIncludes (lowerStr t.subject) lowerKeyword

/-- The `findIndex` helper: index of the first task matching the lowered keyword. -/
def findIndexOf (lowerKeyword : String) (tasks : List Task) : Option Nat :=
  tasks.findIdx? (taskMatches lowerKeyword)

/-- Mutable state of the interpreter loop: `responseText`, `newTasks`, `tasksModified`. -/
structure LoopState where
  responseText : String
  newTasks : List Task
  tasksModified : Bool
  deriving DecidableEq

/-- Insertion as performed by `splice(target, 0, x)` for a clamped target. -/
def insertAt {α : Type} : Nat → α → List α → List α
  | 0, a, l => a :: l
  | _ + 1, a, [] => [a]
  | n + 1, a, b :: l => b :: insertAt n a l

/-- Clamping of the 1-based `newPosition` argument to a 0-based index into the
list with the moved task removed (`src/unnamed/part_000` lines 231-233). -/
def clampTargetIndex (newPosition : Int) (restLength : Nat) : Nat :=
  let t0 : Int := newPosition - 1
  let t1 : Int := if t0 < 0 then 0 else t0
  let t2 : Int := if t1 > (restLength : Int) then (restLength : Int) else t1
  t2.toNat

/-- One iteration of the interpreter loop over the function calls
(`src/unnamed/part_000` lines 193-242). -/
def applyCall (st : LoopState) (call : AgentCall) : LoopState :=
  match call, findIndexOf (lowerStr call.taskKeyword) st.newTasks with
  | .updateTaskTime _ m, some idx =>
    match st.newTasks[idx]? with
    | some t =>
      { responseText := "Updated " ++ t.title ++ " to " ++ toString m ++ " minutes.",
        newTasks := st.newTasks.set idx { t with estimatedMinutes := m },
        tasksModified := true }
    | none => st
  | .updateTaskTime kw _, none => { st with responseText := failMsg kw }
  | .deleteTask _, some idx =>
    match st.newTasks[idx]? with
    | some removed =>
      { responseText := "Removed " ++ removed.title ++ " from your list.",
        newTasks := st.newTasks.eraseIdx idx,
        tasksModified := true }
    | none => st
  | .deleteTask kw, none => { st with responseText := failMsg kw }
  | .reorderTask _ p, some idx =>
    match st.newTasks[idx]? with
    | some taskToMove =>
      let rest := st.newTasks.eraseIdx idx
      let targetIndex := clampTargetIndex p rest.length
      { responseText := "Moved " ++ taskToMove.title ++ " to position #" ++ toString (targetIndex + 1) ++ ".",
        newTasks := insertAt targetIndex taskToMove rest,
        tasksModified := true }
    | none => st
  | .reorderTask kw _, none => { st with responseText := failMsg kw }

/-- The loop over all function calls of the batch. -/
def runCalls (st : LoopState) (calls : List AgentCall) : LoopState :=
  calls.foldl applyCall st

/-- Result of the interpreter: the response text and, when at least one operation
succeeded, the committed list (`undefined`, modelled as `none`, otherwise). -/
structure AgentResult where
  responseText : String
  updatedTasks : Option (List Task)
  deriving DecidableEq

/-- Initial loop state: text from the model reply (or the default), a copy of the
current tasks, nothing modified yet. -/
def initLoopState (modelText : Option String) (currentTasks : List Task) : LoopState :=
  { responseText := modelText.getD "I\x27ve updated your plan!",
    newTasks := currentTasks,
    tasksModified := false }

/-- Deterministic part of `processAgentCommand` (`src/unnamed/part_000` lines 184-248),
given the text part and the function calls of the agent response. -/
def processAgentCommand (modelText : Option String) (calls : List AgentCall)
    (currentTasks : List Task) : AgentResult :=
  let fin := runCalls (initLoopState modelText currentTasks) calls
  { responseText := fin.responseText,
    updatedTasks := if fin.tasksModified then some fin.newTasks else none }

/-- Possible outcomes of the external step-generation call as observed by
`generateStepsForTask`: the call throws, returns empty text, returns text whose
JSON parse throws, or returns a parsed string array. -/
inductive SvcOutcome where
  | throwErr
  | emptyText
  | unparseable
  | parsed (steps : List String)
  deriving DecidableEq

/-- The fixed fallback steps of the catch branch (`src/unnamed/part_000` line 104). -/
def fallbackSteps : List String :=
  ["Prepare materials", "Focus on the first problem", "Continue through the rest", "Review work"]

/-- Result of `generateStepsForTask` (`src/unnamed/part_000` lines 73-106) as a function
of the service outcome: a thrown call or an unparseable payload is caught and replaced
by the fixed fallback; empty text yields the two-step default; otherwise the parsed steps. -/
def generateStepsForTask : SvcOutcome → List String
  | .throwErr => fallbackSteps
  | .emptyText => ["Start task", "Complete task"]
  | .unparseable => fallbackSteps
  | .parsed steps => steps

/-- Component state of `FocusMode.tsx`: the derived current task identity, the
`prevTaskIdRef` ref, and the `timeLeft`, `totalTime`, `isPlaying`, `localSteps` states. -/
structure SessionState where
  activeTaskId : Option String
  prevTaskId : Option String
  timeLeft : Int
  totalTime : Int
  isPlaying : Bool
  localSteps : List TaskStep
  deriving DecidableEq

/-- Task-change effect (`FocusMode.tsx` lines 26-44): when the current task id
differs from `prevTaskIdRef`, reset timer, steps and play state; when the fresh
task has no steps, issue a step-generation request carrying that task id
(returned as the second component). -/
def onTaskChange (currentTask : Option Task) (s : SessionState) :
    SessionState × Option String :=
  match currentTask with
  | none => ({ s with activeTaskId := none }, none)
  | some t =>
    if s.prevTaskId = some t.id then
      ({ s with activeTaskId := some t.id }, none)
    else
      ({ activeTaskId := some t.id,
         prevTaskId := some t.id,
         timeLeft := t.estimatedMinutes * 60,
         totalTime := t.estimatedMinutes * 60,
         isPlaying := true,
         localSteps := t.steps },
       if t.steps.isEmpty then some t.id else none)

/-- The `.then` handler of the step-generation request (`FocusMode.tsx` lines 39-41):
when the asynchronous call issued for `requestTaskId` resolves with `texts`,
`setLocalSteps` replaces the step list with freshly wrapped steps (`freshIds`
supplies the `crypto.randomUUID()` values). The handler never consults
`requestTaskId` or the current active task. Here the generated texts are wrapped
into fresh not-completed steps with `crypto.randomUUID()` identifiers. -/
def wrapGeneratedSteps (freshIds : Nat → String) (texts : List String) : List TaskStep :=
  List.zipWith (fun i t => { id := freshIds i, text := t, isCompleted := false })
    (List.range texts.length) texts

/-- Installation of the resolved step-generation result: `setLocalSteps` replaces
the step list unconditionally. -/
def installGeneratedSteps (requestTaskId : String) (freshIds : Nat → String)
    (texts : List String) (s : SessionState) : SessionState :=
  { s with localSteps := wrapGeneratedSteps freshIds texts }

/-- The interval callback (`FocusMode.tsx` lines 50-52): the interval exists only
while playing with positive time and a current task, and then decrements `timeLeft`. -/
def intervalFire (s : SessionState) : SessionState :=
  if s.isPlaying && decide (0 < s.timeLeft) && s.activeTaskId.isSome then
    { s with timeLeft := s.timeLeft - 1 }
  else s

/-- Re-evaluation of the timer effect (`FocusMode.tsx` lines 47-57): when not in the
interval branch and `timeLeft` is zero with a current task, stop playing. -/
def timerEffect (s : SessionState) : SessionState :=
  if s.isPlaying && decide (0 < s.timeLeft) && s.activeTaskId.isSome then s
  else if decide (s.timeLeft = 0) && s.activeTaskId.isSome then { s with isPlaying := false }
  else s

/-- One timer event: the interval fires (when armed) and the effect re-evaluates. -/
def tick (s : SessionState) : SessionState :=
  timerEffect (intervalFire s)

/-- `toggleStep` (`FocusMode.tsx` lines 77-81): flip `isCompleted` of the steps whose
id equals `stepId`, keep everything else. -/
def toggleOneStep (stepId : String) (st : TaskStep) : TaskStep :=
  if st.id == stepId then { st with isCompleted := !st.isCompleted } else st

/-- `toggleStep`, the whole `setLocalSteps(prev.map(...))` update. -/
def toggleStep (stepId : String) (s : SessionState) : SessionState :=
  { s with localSteps := s.localSteps.map (toggleOneStep stepId) }

/-! Concrete sample data used by witnesses and counterexamples. -/

/-- A sample pending Math task. -/
def sampleTask : Task :=
  { id := "t1", title := "Math HW", subject := "Math", estimatedMinutes := 20,
    steps := [], status := .pending, createdAt := 0 }

/-- A second sample task with a Language subject. -/
def sampleTask2 : Task :=
  { id := "t2", title := "Essay draft", subject := "Language", estimatedMinutes := 30,
    steps := [], status := .pending, createdAt := 1 }

/-- A task without steps, used to trigger step generation. -/
def taskA : Task :=
  { id := "A", title := "Read chapter", subject := "Language", estimatedMinutes := 10,
    steps := [], status := .pending, createdAt := 0 }

/-- A task that already has a step. -/
def taskB : Task :=
  { id := "B", title := "Algebra", subject := "Math", estimatedMinutes := 15,
    steps := [{ id := "sB", text := "Solve", isCompleted := false }],
    status := .pending, createdAt := 1 }

/-- A deterministic stand-in for the `crypto.randomUUID()` supply. -/
def uuidSupply : Nat → String := fun n => "uuid-" ++ toString n

/-- An initial focus-session state before any task became active. -/
def s0 : SessionState :=
  { activeTaskId := none, prevTaskId := none, timeLeft := 0, totalTime := 0,
    isPlaying := true, localSteps := [] }

/-- A running session with two seconds left, as in the countdown property. -/
def twoSecondSession : SessionState :=
  { activeTaskId := some "t1", prevTaskId := some "t1", timeLeft := 2, totalTime := 1200,
    isPlaying := true, localSteps := [] }

/-- A running session whose active task has two steps with distinct ids. -/
def sessionWithSteps : SessionState :=
  { activeTaskId := some "B", prevTaskId := some "B", timeLeft := 100, totalTime := 900,
    isPlaying := true,
    localSteps := [{ id := "s1", text := "Read", isCompleted := false },
                   { id := "s2", text := "Write", isCompleted := true }] }

/-- A running session with positive time left. -/
def positiveSession : SessionState :=
  { activeTaskId := some "t1", prevTaskId := some "t1", timeLeft := 5, totalTime := 600,
    isPlaying := true, localSteps := [] }

/-! Helper lemmas about the embedded operations. -/

theorem containsChars_nil_left (s : List Char) : containsChars [] s = true := by
  cases s <;> simp [containsChars, List.isPrefixOf]

theorem containsChars_append_left (a sub s : List Char)
    (h : containsChars sub s = true) : containsChars sub (a ++ s) = true := by
  induction a with
  | nil => simpa using h
  | cons c a ih =>
    show containsChars sub (c :: (a ++ s)) = true
    unfold containsChars
    rw [ih]
    simp

theorem containsChars_append_self (sub b : List Char) :
    containsChars sub (sub ++ b) = true := by
  cases sub with
  | nil => exact containsChars_nil_left b
  | cons c t =>
    show containsChars (c :: t) (c :: (t ++ b)) = true
    unfold containsChars
    have : (c :: t).isPrefixOf (c :: (t ++ b)) = true := by
      rw [ List.isPrefixOf_iff_prefix]
      exact List.prefix_append (c :: t) b
    rw [this]
    simp

theorem failMsg_includes (k : String) : jsIncludes (failMsg k) k = true := by
  unfold jsIncludes failMsg
  rw [String.data_append, String.data_append, List.append_assoc]
  exact containsChars_append_left _ _ _ (containsChars_append_self _ _)

theorem insertAt_length (n : Nat) (a : α) (l : List α) (h : n ≤ l.length) :
    (insertAt n a l).length = l.length + 1 := by
  induction n generalizing l with
  | zero => rfl
  | succ n ih =>
    cases l with
    | nil => simp at h
    | cons b l =>
      show (b :: insertAt n a l).length = (b :: l).length + 1
      simp only [List.length_cons]
      rw [ih l (Nat.le_of_succ_le_succ h)]

theorem insertAt_getElem?_self (n : Nat) (a : α) (l : List α) (h : n ≤ l.length) :
    (insertAt n a l)[n]? = some a := by
  induction n generalizing l with
  | zero => simp [insertAt]
  | succ n ih =>
    cases l with
    | nil => simp at h
    | cons b l =>
      show (b :: insertAt n a l)[n + 1]? = some a
      rw [List.getElem?_cons_succ]
      exact ih l (Nat.le_of_succ_le_succ h)

theorem insertAt_length_self (a : α) (l : List α) :
    insertAt l.length a l = l ++ [a] := by
  induction l with
  | nil => rfl
  | cons b l ih =>
    show b :: insertAt l.length a l = b :: (l ++ [a])
    rw [ih]

theorem mem_insertAt {x a : α} : ∀ {n : Nat} {l : List α},
    x ∈ insertAt n a l → x = a ∨ x ∈ l
  | 0, l, h => by
    rcases List.mem_cons.mp h with h | h
    · exact Or.inl h
    · exact Or.inr h
  | _ + 1, [], h => by
    simp [insertAt] at h
    exact Or.inl h
  | n + 1, b :: l, h => by
    rcases List.mem_cons.mp h with h | h
    · exact Or.inr (h ▸ List.mem_cons_self b l)
    · rcases mem_insertAt h with h | h
      · exact Or.inl h
      · exact Or.inr (List.mem_cons_of_mem b h)

theorem clampTargetIndex_le (p : Int) (r : Nat) : clampTargetIndex p r ≤ r := by
  simp only [clampTargetIndex]
  split_ifs <;> omega

theorem clampTargetIndex_one (r : Nat) : clampTargetIndex 1 r = 0 := by
  simp only [clampTargetIndex]
  split_ifs <;> omega

theorem clampTargetIndex_ge (p : Int) (r : Nat) (h : (r : Int) + 1 ≤ p) :
    clampTargetIndex p r = r := by
  simp only [clampTargetIndex]
  split_ifs <;> omega

theorem applyCall_unresolved (st : LoopState) (call : AgentCall)
    (h : findIndexOf (lowerStr call.taskKeyword) st.newTasks = none) :
    applyCall st call = { st with responseText := failMsg call.taskKeyword } := by
  cases call <;> simp [applyCall, AgentCall.taskKeyword] at h ⊢ <;> rw [h]

theorem runCalls_nil (st : LoopState) : runCalls st [] = st := rfl

theorem runCalls_cons (st : LoopState) (c : AgentCall) (rest : List AgentCall) :
    runCalls st (c :: rest) = runCalls (applyCall st c) rest := rfl

theorem runCalls_all_unresolved : ∀ (calls : List AgentCall) (st : LoopState),
    (∀ d ∈ calls, findIndexOf (lowerStr d.taskKeyword) st.newTasks = none) →
    (runCalls st calls).newTasks = st.newTasks ∧
    (runCalls st calls).tasksModified = st.tasksModified ∧
    ∀ c, calls.getLast? = some c →
      (runCalls st calls).responseText = failMsg c.taskKeyword
  | [], st, _ => by simp [runCalls_nil]
  | call :: rest, st, hall => by
    have h1 : findIndexOf (lowerStr call.taskKeyword) st.newTasks = none :=
      hall call (List.mem_cons_self call rest)
    have hstep := applyCall_unresolved st call h1
    have hrest := runCalls_all_unresolved rest
      { st with responseText := failMsg call.taskKeyword }
      (fun d hd => hall d (List.mem_cons_of_mem call hd))
    rw [runCalls_cons, hstep]
    refine ⟨hrest.1, hrest.2.1, ?_⟩
    intro c hc
    cases rest with
    | nil =>
      have : call = c := by
        simpa [List.getLast?] using hc
      rw [runCalls_nil]
      rw [this]
    | cons r rs =>
      have : (r :: rs).getLast? = some c := by
        rwa [List.getLast?_cons_cons] at hc
      exact hrest.2.2 c this

/-! Claim theorems. -/

/-- C1: for every batch of mutation operations in which every operation keyword
resolves to no task, the interpreter commits no list (the evolving snapshot stays
identical in content to the input list, and `updatedTasks` is `none`, so the caller
keeps the original list), and the response text is the failure explanation for the
last attempted operation. -/
theorem processAgentCommand_all_unresolved_noop (modelText : Option String)
    (calls : List AgentCall) (tasks : List Task) (c : AgentCall)
    (hlast : calls.getLast? = some c)
    (hall : ∀ d ∈ calls, findIndexOf (lowerStr d.taskKeyword) tasks = none) :
    (processAgentCommand modelText calls tasks).updatedTasks = none ∧
    (runCalls (initLoopState modelText tasks) calls).newTasks = tasks ∧
    (processAgentCommand modelText calls tasks).responseText = failMsg c.taskKeyword := by
  have h := runCalls_all_unresolved calls (initLoopState modelText tasks) hall
  refine ⟨?_, h.1, ?_⟩
  · simp only [processAgentCommand]
    rw [h.2.1]
    rfl
  · simp only [processAgentCommand]
    exact h.2.2 c hlast

/-- Closed witness for C1 at a concrete two-operation batch whose keywords match
nothing in the sample list. -/
theorem processAgentCommand_all_unresolved_noop_witness :
    ([AgentCall.deleteTask "zzz", AgentCall.updateTaskTime "qqq" 5].getLast? =
      some (AgentCall.updateTaskTime "qqq" 5)) ∧
    (∀ d ∈ [AgentCall.deleteTask "zzz", AgentCall.updateTaskTime "qqq" 5],
      findIndexOf (lowerStr d.taskKeyword) [sampleTask] = none) ∧
    ((processAgentCommand none [AgentCall.deleteTask "zzz", AgentCall.updateTaskTime "qqq" 5]
        [sampleTask]).updatedTasks = none ∧
      (runCalls (initLoopState none [sampleTask])
        [AgentCall.deleteTask "zzz", AgentCall.updateTaskTime "qqq" 5]).newTasks = [sampleTask] ∧
      (processAgentCommand none [AgentCall.deleteTask "zzz", AgentCall.updateTaskTime "qqq" 5]
        [sampleTask]).responseText = failMsg "qqq") :=
  ⟨by decide, by decide,
    processAgentCommand_all_unresolved_noop none
      [AgentCall.deleteTask "zzz", AgentCall.updateTaskTime "qqq" 5] [sampleTask]
      (AgentCall.updateTaskTime "qqq" 5) (by decide) (by decide)⟩

/-- C7: whenever the external step-generation call fails (it throws, or its payload
is unparseable and the parse throws inside the same try block), the substituted
result is the fixed four-step fallback sequence, which is non-empty. -/
theorem generateStepsForTask_failure_fallback :
    generateStepsForTask .throwErr = fallbackSteps ∧
    generateStepsForTask .unparseable = fallbackSteps ∧
    fallbackSteps.length = 4 ∧
    fallbackSteps ≠ [] := by
  refine ⟨rfl, rfl, rfl, by decide⟩

/-- C3 evaluation: the step-generation request is issued for task `A` while it is
active; the active task then changes to `B`; when the asynchronous result for `A`
arrives, the handler still installs it, replacing the step list of the session
whose active task is `B` (the stale result is not discarded). -/
theorem staleSteps_installed_despite_task_change :
    (onTaskChange (some taskA) s0).2 = some taskA.id ∧
    (onTaskChange (some taskB) (onTaskChange (some taskA) s0).1).1.activeTaskId = some "B" ∧
    (onTaskChange (some taskB) (onTaskChange (some taskA) s0).1).1.localSteps = taskB.steps ∧
    (installGeneratedSteps "A" uuidSupply fallbackSteps
        (onTaskChange (some taskB) (onTaskChange (some taskA) s0).1).1).localSteps =
      wrapGeneratedSteps uuidSupply fallbackSteps ∧
    wrapGeneratedSteps uuidSupply fallbackSteps ≠ taskB.steps := by
  refine ⟨by decide, by decide, by decide, rfl, by decide⟩

/-- C9: in a running session with two seconds left, two ticks reach the expired
state (`timeLeft = 0`, not playing), a further tick leaves the state unchanged,
and a tick never drives `timeLeft` below zero. -/
theorem countdown_two_ticks_expire :
    (tick (tick twoSecondSession)).timeLeft = 0 ∧
    (tick (tick twoSecondSession)).isPlaying = false ∧
    tick (tick (tick twoSecondSession)) = tick (tick twoSecondSession) ∧
    ∀ s : SessionState, 0 ≤ s.timeLeft → 0 ≤ (tick s).timeLeft := by
  refine ⟨by decide, by decide, by decide, ?_⟩
  intro s h
  unfold tick intervalFire timerEffect
  split_ifs <;> simp_all <;> omega

/-- Closed witness for the tick nonnegativity hypothesis of C9 at a session with
five seconds left. -/
theorem countdown_two_ticks_expire_witness :
    0 ≤ positiveSession.timeLeft ∧ 0 ≤ (tick positiveSession).timeLeft :=
  ⟨by decide, countdown_two_ticks_expire.2.2.2 positiveSession (by decide)⟩

/-- C2: when a reorder operation resolves, the task found at `idx` is reinserted
at the clamped index, which is always within the bounds of the resulting list
(whose length equals the input length); position 1 always puts the task first,
and any position at least the current list length always puts it last. -/
theorem reorderTask_clamps_position (st : LoopState) (kw : String) (p : Int)
    (idx : Nat) (t : Task)
    (hfind : findIndexOf (lowerStr kw) st.newTasks = some idx)
    (hget : st.newTasks[idx]? = some t) :
    (applyCall st (.reorderTask kw p)).newTasks.length = st.newTasks.length ∧
    clampTargetIndex p (st.newTasks.eraseIdx idx).length ≤ st.newTasks.length - 1 ∧
    (applyCall st (.reorderTask kw p)).newTasks[clampTargetIndex p
      (st.newTasks.eraseIdx idx).length]? = some t ∧
    (p = 1 → (applyCall st (.reorderTask kw p)).newTasks.head? = some t) ∧
    ((st.newTasks.length : Int) ≤ p →
      (applyCall st (.reorderTask kw p)).newTasks.getLast? = some t) := by
  have hidx : idx < st.newTasks.length := (List.getElem?_eq_some_iff.mp hget).1
  have hr : (st.newTasks.eraseIdx idx).length = st.newTasks.length - 1 :=
    List.length_eraseIdx_of_lt hidx
  have hcl : clampTargetIndex p (st.newTasks.eraseIdx idx).length ≤
      (st.newTasks.eraseIdx idx).length := clampTargetIndex_le _ _
  have happ : (applyCall st (.reorderTask kw p)).newTasks =
      insertAt (clampTargetIndex p (st.newTasks.eraseIdx idx).length) t
        (st.newTasks.eraseIdx idx) := by
    simp [applyCall, AgentCall.taskKeyword, hfind, hget]
  refine ⟨?_, ?_, ?_, ?_, ?_⟩
  · rw [happ, insertAt_length _ _ _ hcl, hr]
    omega
  · omega
  · rw [happ]
    exact insertAt_getElem?_self _ _ _ hcl
  · intro hp
    subst hp
    rw [happ, clampTargetIndex_one]
    rfl
  · intro hp
    have hge : clampTargetIndex p (st.newTasks.eraseIdx idx).length =
        (st.newTasks.eraseIdx idx).length := by
      refine clampTargetIndex_ge _ _ ?_
      rw [hr]
      omega
    rw [happ, hge, insertAt_length_self]
    exact List.getLast?_concat _

/-- Closed witness for C2: moving the second of two tasks to position 99 puts it
last, and position 1 would put it first. -/
theorem reorderTask_clamps_position_witness :
    findIndexOf (lowerStr "essay") (initLoopState none [sampleTask, sampleTask2]).newTasks =
      some 1 ∧
    (initLoopState none [sampleTask, sampleTask2]).newTasks[1]? = some sampleTask2 ∧
    ((applyCall (initLoopState none [sampleTask, sampleTask2])
        (.reorderTask "essay" 99)).newTasks.length =
      (initLoopState none [sampleTask, sampleTask2]).newTasks.length ∧
    clampTargetIndex 99
        ((initLoopState none [sampleTask, sampleTask2]).newTasks.eraseIdx 1).length ≤
      (initLoopState none [sampleTask, sampleTask2]).newTasks.length - 1 ∧
    (applyCall (initLoopState none [sampleTask, sampleTask2])
        (.reorderTask "essay" 99)).newTasks[clampTargetIndex 99
      ((initLoopState none [sampleTask, sampleTask2]).newTasks.eraseIdx 1).length]? =
      some sampleTask2 ∧
    ((99 : Int) = 1 → (applyCall (initLoopState none [sampleTask, sampleTask2])
        (.reorderTask "essay" 99)).newTasks.head? = some sampleTask2) ∧
    (((initLoopState none [sampleTask, sampleTask2]).newTasks.length : Int) ≤ 99 →
      (applyCall (initLoopState none [sampleTask, sampleTask2])
        (.reorderTask "essay" 99)).newTasks.getLast? = some sampleTask2)) :=
  ⟨by decide, by decide,
    reorderTask_clamps_position (initLoopState none [sampleTask, sampleTask2]) "essay" 99 1
      sampleTask2 (by decide) (by decide)⟩

/-- C4 counterexample: the empty keyword does not resolve to no task; it resolves
to the first task (JavaScript `includes` holds for the empty substring), and the
operation mutates the list. -/
theorem emptyKeyword_matches_counterexample :
    findIndexOf (lowerStr "") [sampleTask] = some 0 ∧
    (processAgentCommand none [AgentCall.updateTaskTime "" 5] [sampleTask]).updatedTasks =
      some [{ sampleTask with estimatedMinutes := 5 }] := by decide

/-- C4 amended: an operation whose keyword is the empty string resolves to the
first task of the list (index 0) whenever the list is non-empty, because every
string contains the empty substring; only on an empty list does it resolve to
nothing. -/
theorem emptyKeyword_resolves_first (ts : List Task) :
    (ts = [] → findIndexOf (lowerStr "") ts = none) ∧
    (ts ≠ [] → findIndexOf (lowerStr "") ts = some 0) := by
  constructor
  · rintro rfl
    rfl
  · intro h
    cases ts with
    | nil => exact absurd rfl h
    | cons t rest =>
      have hm : taskMatches (lowerStr "") t = true := by
        unfold taskMatches jsIncludes
        rw [show (lowerStr "").data = [] from rfl]
        rw [containsChars_nil_left]
        simp
      show (t :: rest).findIdx? (taskMatches (lowerStr "")) = some 0
      rw [List.findIdx?_cons, hm]
      rfl

/-- Closed witness for C4 amended at a concrete non-empty list. -/
theorem emptyKeyword_resolves_first_witness :
    ([sampleTask2] ≠ ([] : List Task)) ∧ findIndexOf (lowerStr "") [sampleTask2] = some 0 :=
  ⟨by decide, (emptyKeyword_resolves_first [sampleTask2]).2 (by decide)⟩

/-- C6 counterexample: a batch whose first operation has an unmatched keyword and
whose second operation succeeds ends with a response that does not name the
unmatched keyword (the later operation overwrote the failure text). -/
theorem unresolved_keyword_response_overwritten :
    findIndexOf (lowerStr (AgentCall.deleteTask "zzz").taskKeyword) [sampleTask] = none ∧
    (processAgentCommand none [AgentCall.deleteTask "zzz", AgentCall.updateTaskTime "math" 5]
      [sampleTask]).responseText = "Updated Math HW to 5 minutes." ∧
    jsIncludes (processAgentCommand none
      [AgentCall.deleteTask "zzz", AgentCall.updateTaskTime "math" 5]
      [sampleTask]).responseText "zzz" = false := by decide

/-- C6 amended: an operation whose keyword matches no task in the evolving
snapshot is dropped (the list and the modified flag are untouched), the remaining
operations of the batch are still applied to the same snapshot, and the failure
text set at that point names the unmatched keyword as a substring; the final
response shows it only if no later operation overwrites the text. -/
theorem runCalls_unresolved_op_dropped (st : LoopState) (pre post : List AgentCall)
    (c : AgentCall)
    (h : findIndexOf (lowerStr c.taskKeyword) (runCalls st pre).newTasks = none) :
    runCalls st (pre ++ c :: post) =
      runCalls { runCalls st pre with responseText := failMsg c.taskKeyword } post ∧
    jsIncludes (failMsg c.taskKeyword) c.taskKeyword = true := by
  constructor
  · show (pre ++ c :: post).foldl applyCall st = _
    rw [List.foldl_append, List.foldl_cons]
    rw [show List.foldl applyCall st pre = runCalls st pre from rfl]
    rw [applyCall_unresolved _ _ h]
    rfl
  · exact failMsg_includes c.taskKeyword

/-- Closed witness for C6 amended: the unmatched delete is dropped and the
following update is still applied. -/
theorem runCalls_unresolved_op_dropped_witness :
    findIndexOf (lowerStr (AgentCall.deleteTask "zzz").taskKeyword)
      (runCalls (initLoopState none [sampleTask]) []).newTasks = none ∧
    (runCalls (initLoopState none [sampleTask])
        ([] ++ AgentCall.deleteTask "zzz" :: [AgentCall.updateTaskTime "math" 5]) =
      runCalls { runCalls (initLoopState none [sampleTask]) [] with
        responseText := failMsg (AgentCall.deleteTask "zzz").taskKeyword }
        [AgentCall.updateTaskTime "math" 5] ∧
    jsIncludes (failMsg (AgentCall.deleteTask "zzz").taskKeyword)
      (AgentCall.deleteTask "zzz").taskKeyword = true) :=
  ⟨by decide,
    runCalls_unresolved_op_dropped (initLoopState none [sampleTask]) []
      [AgentCall.updateTaskTime "math" 5] (AgentCall.deleteTask "zzz") (by decide)⟩

/-- Positivity side condition on a tool call: an update carries a positive number
of minutes; other calls carry none. -/
def callMinutesPositiveB : AgentCall → Bool
  | .updateTaskTime _ m => decide (0 < m)
  | _ => true

theorem applyCall_preserves_positive (st : LoopState) (call : AgentCall)
    (hpos : ∀ t ∈ st.newTasks, 0 < t.estimatedMinutes)
    (hc : callMinutesPositiveB call = true) :
    ∀ t ∈ (applyCall st call).newTasks, 0 < t.estimatedMinutes := by
  cases call with
  | updateTaskTime kw m =>
    have hm : (0 : Int) < m := by simpa [callMinutesPositiveB] using hc
    cases hfind : findIndexOf (lowerStr kw) st.newTasks with
    | none =>
      intro t ht
      rw [applyCall_unresolved _ _ (by simpa [AgentCall.taskKeyword] using hfind)] at ht
      exact hpos t ht
    | some idx =>
      cases hget : st.newTasks[idx]? with
      | none =>
        have heq : applyCall st (.updateTaskTime kw m) = st := by
          simp [applyCall, AgentCall.taskKeyword, hfind, hget]
        rw [heq]
        exact hpos
      | some t0 =>
        have heq : (applyCall st (.updateTaskTime kw m)).newTasks =
            st.newTasks.set idx { t0 with estimatedMinutes := m } := by
          simp [applyCall, AgentCall.taskKeyword, hfind, hget]
        rw [heq]
        intro t ht
        rcases List.mem_or_eq_of_mem_set ht with h | h
        · exact hpos t h
        · rw [h]
          exact hm
  | deleteTask kw =>
    cases hfind : findIndexOf (lowerStr kw) st.newTasks with
    | none =>
      intro t ht
      rw [applyCall_unresolved _ _ (by simpa [AgentCall.taskKeyword] using hfind)] at ht
      exact hpos t ht
    | some idx =>
      cases hget : st.newTasks[idx]? with
      | none =>
        have heq : applyCall st (.deleteTask kw) = st := by
          simp [applyCall, AgentCall.taskKeyword, hfind, hget]
        rw [heq]
        exact hpos
      | some t0 =>
        have heq : (applyCall st (.deleteTask kw)).newTasks = st.newTasks.eraseIdx idx := by
          simp [applyCall, AgentCall.taskKeyword, hfind, hget]
        rw [heq]
        intro t ht
        exact hpos t (List.Sublist.mem ht (List.eraseIdx_sublist st.newTasks idx))
  | reorderTask kw p =>
    cases hfind : findIndexOf (lowerStr kw) st.newTasks with
    | none =>
      intro t ht
      rw [applyCall_unresolved _ _ (by simpa [AgentCall.taskKeyword] using hfind)] at ht
      exact hpos t ht
    | some idx =>
      cases hget : st.newTasks[idx]? with
      | none =>
        have heq : applyCall st (.reorderTask kw p) = st := by
          simp [applyCall, AgentCall.taskKeyword, hfind, hget]
        rw [heq]
        exact hpos
      | some t0 =>
        have heq : (applyCall st (.reorderTask kw p)).newTasks =
            insertAt (clampTargetIndex p (st.newTasks.eraseIdx idx).length) t0
              (st.newTasks.eraseIdx idx) := by
          simp [applyCall, AgentCall.taskKeyword, hfind, hget]
        rw [heq]
        intro t ht
        rcases mem_insertAt ht with h | h
        · obtain ⟨hlt, hg⟩ := List.getElem?_eq_some_iff.mp hget
          rw [h, ← hg]
          exact hpos _ (List.getElem_mem hlt)
        · exact hpos t (List.Sublist.mem h (List.eraseIdx_sublist st.newTasks idx))

theorem runCalls_preserves_positive : ∀ (calls : List AgentCall) (st : LoopState),
    (∀ t ∈ st.newTasks, 0 < t.estimatedMinutes) →
    (∀ c ∈ calls, callMinutesPositiveB c = true) →
    ∀ t ∈ (runCalls st calls).newTasks, 0 < t.estimatedMinutes
  | [], st, hpos, _ => by simpa [runCalls_nil] using hpos
  | call :: rest, st, hpos, hcalls => by
    rw [runCalls_cons]
    exact runCalls_preserves_positive rest (applyCall st call)
      (applyCall_preserves_positive st call hpos (hcalls call (List.mem_cons_self call rest)))
      (fun d hd => hcalls d (List.mem_cons_of_mem call hd))

/-- C5 counterexample: an `updateTaskTime` call carrying `newMinutes = 0` is
written verbatim, so a list of positive-minute tasks is turned into one
containing a task with zero minutes. -/
theorem updateTime_nonpositive_counterexample :
    (∀ t ∈ [sampleTask], 0 < t.estimatedMinutes) ∧
    ¬ (∀ t ∈ ((processAgentCommand none [AgentCall.updateTaskTime "math" 0]
        [sampleTask]).updatedTasks.getD [sampleTask]), 0 < t.estimatedMinutes) := by decide

/-- C5 amended: when every task of the input list has positive `estimatedMinutes`
and every `updateTaskTime` operation of the batch carries a positive `newMinutes`,
the committed list still has positive `estimatedMinutes` everywhere; the
interpreter itself copies `newMinutes` verbatim and enforces no bound. -/
theorem processAgentCommand_preserves_positive_minutes (modelText : Option String)
    (calls : List AgentCall) (tasks : List Task)
    (hpos : ∀ t ∈ tasks, 0 < t.estimatedMinutes)
    (hcalls : ∀ c ∈ calls, callMinutesPositiveB c = true) :
    ∀ t ∈ ((processAgentCommand modelText calls tasks).updatedTasks.getD tasks),
      0 < t.estimatedMinutes := by
  have h := runCalls_preserves_positive calls (initLoopState modelText tasks) hpos hcalls
  intro t ht
  simp only [processAgentCommand] at ht
  split at ht
  · exact h t (by simpa using ht)
  · exact hpos t (by simpa using ht)

/-- Closed witness for C5 amended with a positive update. -/
theorem processAgentCommand_preserves_positive_minutes_witness :
    (∀ t ∈ [sampleTask], 0 < t.estimatedMinutes) ∧
    (∀ c ∈ [AgentCall.updateTaskTime "math" 25], callMinutesPositiveB c = true) ∧
    ∀ t ∈ ((processAgentCommand none [AgentCall.updateTaskTime "math" 25]
        [sampleTask]).updatedTasks.getD [sampleTask]), 0 < t.estimatedMinutes :=
  ⟨by decide, by decide,
    processAgentCommand_preserves_positive_minutes none [AgentCall.updateTaskTime "math" 25]
      [sampleTask] (by decide) (by decide)⟩

/-- C8: target resolution returns index `i` exactly when the task at `i` has a
lowered title or subject containing the lowered keyword and every earlier task
has neither; so the first match in list order always wins. -/
theorem findIndexOf_first_match (k : String) (ts : List Task) (i : Nat) :
    findIndexOf (lowerStr k) ts = some i ↔
      ∃ h : i < ts.length,
        (jsIncludes (lowerStr (ts.get ⟨i, h⟩).title) (lowerStr k) ||
          jsIncludes (lowerStr (ts.get ⟨i, h⟩).subject) (lowerStr k)) = true ∧
        ∀ j : Fin ts.length, (j : Nat) < i →
          (jsIncludes (lowerStr (ts.get j).title) (lowerStr k) ||
            jsIncludes (lowerStr (ts.get j).subject) (lowerStr k)) = false := by
  unfold findIndexOf
  rw [List.findIdx?_eq_some_iff_getElem]
  constructor
  · rintro ⟨h, hp, hall⟩
    refine ⟨h, ?_, ?_⟩
    · simpa [taskMatches, List.get_eq_getElem] using hp
    · intro j hj
      have hx := hall j.1 hj
      simpa [taskMatches, List.get_eq_getElem] using hx
  · rintro ⟨h, hp, hall⟩
    refine ⟨h, ?_, ?_⟩
    · simpa [taskMatches, List.get_eq_getElem] using hp
    · intro j hji
      have hjl : j < ts.length := Nat.lt_trans hji h
      have hx := hall ⟨j, hjl⟩ hji
      simpa [taskMatches, List.get_eq_getElem] using hx

/-- Closed witness for C8: with two tasks both matching the keyword, the earlier
one (index 0) is selected. -/
theorem findIndexOf_first_match_witness :
    findIndexOf (lowerStr "ma") [sampleTask, taskB] = some 0 :=
  (findIndexOf_first_match "ma" [sampleTask, taskB] 0).mpr ⟨by decide, by decide, by decide⟩

theorem step_id_ne_of_nodup (l : List TaskStep)
    (hnodup : (l.map TaskStep.id).Nodup) {j k : Nat}
    (hj : j < l.length) (hk : k < l.length) (hne : k ≠ j) :
    (l[k]).id ≠ (l[j]).id := by
  intro he
  have hj2 : j < (l.map TaskStep.id).length := by simpa using hj
  have hk2 : k < (l.map TaskStep.id).length := by simpa using hk
  have hmap : (l.map TaskStep.id)[k] = (l.map TaskStep.id)[j] := by
    rw [List.getElem_map, List.getElem_map]
    exact he
  exact hne ((List.Nodup.getElem_inj_iff hnodup).mp hmap)

/-- C10: toggling one step of the session (identified by `stepId`, present at
index `j`, step ids being unique) flips only the `isCompleted` flag of that step; the
timer values, play state, task identity and every other step are unchanged. -/
theorem toggleStep_only_flips_step (s : SessionState) (stepId : String)
    (j : Nat) (step : TaskStep)
    (hj : s.localSteps[j]? = some step)
    (hid : step.id = stepId)
    (hnodup : (s.localSteps.map TaskStep.id).Nodup) :
    (toggleStep stepId s).timeLeft = s.timeLeft ∧
    (toggleStep stepId s).totalTime = s.totalTime ∧
    (toggleStep stepId s).isPlaying = s.isPlaying ∧
    (toggleStep stepId s).activeTaskId = s.activeTaskId ∧
    (toggleStep stepId s).prevTaskId = s.prevTaskId ∧
    (toggleStep stepId s).localSteps.length = s.localSteps.length ∧
    (toggleStep stepId s).localSteps[j]? =
      some { step with isCompleted := !step.isCompleted } ∧
    ∀ i, i ≠ j → (toggleStep stepId s).localSteps[i]? = s.localSteps[i]? := by
  have hjl : j < s.localSteps.length := (List.getElem?_eq_some_iff.mp hj).1
  have hjget : s.localSteps[j] = step := by
    obtain ⟨h, hg⟩ := List.getElem?_eq_some_iff.mp hj
    exact hg
  refine ⟨rfl, rfl, rfl, rfl, rfl, by simp [toggleStep], ?_, ?_⟩
  · show (s.localSteps.map (toggleOneStep stepId))[j]? = _
    rw [List.getElem?_map, hj]
    have hflip : toggleOneStep stepId step = { step with isCompleted := !step.isCompleted } := by
      unfold toggleOneStep
      rw [if_pos]
      simpa using hid
    simp [hflip]
  · intro i hne
    show (s.localSteps.map (toggleOneStep stepId))[i]? = s.localSteps[i]?
    rw [List.getElem?_map]
    by_cases hil : i < s.localSteps.length
    · have hstep : s.localSteps[i]? = some s.localSteps[i] := List.getElem?_eq_getElem hil
      rw [hstep]
      have hidne : (s.localSteps[i]).id ≠ stepId := by
        rw [← hid, ← hjget]
        exact step_id_ne_of_nodup s.localSteps hnodup hjl hil hne
      have hb : ((s.localSteps[i]).id == stepId) = false :=
        beq_eq_false_iff_ne.mpr hidne
      have hkeep : toggleOneStep stepId s.localSteps[i] = s.localSteps[i] := by
        unfold toggleOneStep
        rw [hb]
        rfl
      simp [hkeep]
    · have h1 : s.localSteps[i]? = none := List.getElem?_eq_none (Nat.le_of_not_lt hil)
      rw [h1]
      rfl

/-- Closed witness for C10 at a two-step session, toggling the first step. -/
theorem toggleStep_only_flips_step_witness :
    sessionWithSteps.localSteps[0]? =
      some { id := "s1", text := "Read", isCompleted := false } ∧
    (TaskStep.id { id := "s1", text := "Read", isCompleted := false }) = "s1" ∧
    (sessionWithSteps.localSteps.map TaskStep.id).Nodup ∧
    ((toggleStep "s1" sessionWithSteps).timeLeft = sessionWithSteps.timeLeft ∧
    (toggleStep "s1" sessionWithSteps).totalTime = sessionWithSteps.totalTime ∧
    (toggleStep "s1" sessionWithSteps).isPlaying = sessionWithSteps.isPlaying ∧
    (toggleStep "s1" sessionWithSteps).activeTaskId = sessionWithSteps.activeTaskId ∧
    (toggleStep "s1" sessionWithSteps).prevTaskId = sessionWithSteps.prevTaskId ∧
    (toggleStep "s1" sessionWithSteps).localSteps.length =
      sessionWithSteps.localSteps.length ∧
    (toggleStep "s1" sessionWithSteps).localSteps[0]? =
      some { id := "s1", text := "Read", isCompleted := true } ∧
    ∀ i, i ≠ 0 → (toggleStep "s1" sessionWithSteps).localSteps[i]? =
      sessionWithSteps.localSteps[i]?) :=
  ⟨by decide, by decide, by decide,
    toggleStep_only_flips_step sessionWithSteps "s1" 0
      { id := "s1", text := "Read", isCompleted := false } (by decide) (by decide) (by decide)⟩

end TaskFlow
